import Mathlib

/-!
# Verification of the digital-muon-pipeline detection and simulation engines

This development gives a shallow embedding, in Lean 4, of the parts of the
`trace-to-events` and `simulator` crates that the specification talks about:

* the differential-threshold detector
  (`trace-to-events/src/pulse_detection/detectors/differential_threshold_detector.rs`),
  its state machine, partial events and event iterator;
* the pulse model (`simulator/src/integrated/simulation_elements/pulses.rs`);
* the noise model (`simulator/src/integrated/simulation_elements/noise.rs`);
* the digitiser configuration
  (`simulator/src/integrated/simulation_elements/digitiser_config.rs`);
* the amplitude filters of the advanced pipeline (`trace-to-events/src/channels.rs`).

Numeric modelling: the Rust code computes over IEEE-754 doubles (`Real = f64`).
The detector, noise and filter code only ever add, subtract and compare the
sampled values, so those parts are embedded over `ℚ`, which models the exact
test inputs faithfully and keeps every definition executable.  The pulse model
uses `exp`, `log` and `erfc`, so it is embedded over `ℝ`; `libm::erfc` is an
external C function and enters the embedding as an explicit function parameter.
Rust's `x as u32` cast of a double (truncation toward zero, saturating at the
type bounds) is modelled by `toTime`.
-/

namespace Muon

/-! ## Differential-threshold detector (`differential_threshold_detector.rs`)

The detector consumes a stream of `(time, TraceArray<2>)` pairs, i.e. a value
together with its first backward difference, and emits `(time, Data)` events.
-/

/-- `TraceArray<2, Real>`: entry `0` is the value, entry `1` the first
backward difference. -/
structure TraceArray2 where
  v : ℚ
  dv : ℚ
deriving DecidableEq, Repr

/-- `DifferentialThresholdParameters` (fields as in the source). -/
structure DifferentialThresholdParameters where
  beginThreshold : ℚ
  beginDuration : ℚ
  endThreshold : ℚ
  endDuration : ℚ
  coolOff : ℚ
deriving DecidableEq, Repr

/-- `PeakHeightMode` from `parameters.rs`. -/
inductive PeakHeightMode where
  | maxValue
  | valueAtEndTrigger
deriving DecidableEq, Repr

/-- `DetectorState` of the differential-threshold detector. -/
inductive DetectorState where
  | waiting
  | beginning (timeBegun : ℚ)
  | detected
  | ending (timeEnded : ℚ)
  | coolingDown (timeEnded : ℚ)
deriving DecidableEq, Repr

/-- The time-independent payload `Data` of an emitted event. -/
structure Data where
  baseHeight : ℚ
  peakHeight : ℚ
deriving DecidableEq, Repr

/-- `ThresholdEvent = (Real, Data)`. -/
abbrev ThresholdEvent := ℚ × Data

/-- `PartialEvent`: an event in the process of being detected. -/
structure PartialEvent where
  baseHeight : ℚ
  timeOfEvent : ℚ
  peakHeight : ℚ
  traceArrayAtMaxDeriv : TraceArray2
deriving DecidableEq, Repr

namespace PartialEvent

/-- `PartialEvent::new`. -/
def new (time : ℚ) (value : TraceArray2) : PartialEvent :=
  { timeOfEvent := time
    traceArrayAtMaxDeriv := value
    baseHeight := value.v - value.dv
    peakHeight := value.v }

/-- `PartialEvent::update`: replace the stored maximum-derivative sample only
on a strictly greater derivative, then update the peak height according to the
mode. -/
def update (p : PartialEvent) (peakHeightMode : PeakHeightMode) (time : ℚ)
    (value : TraceArray2) : PartialEvent :=
  let p :=
    if p.traceArrayAtMaxDeriv.dv < value.dv then
      { p with traceArrayAtMaxDeriv := value, timeOfEvent := time }
    else p
  { p with
      peakHeight :=
        match peakHeightMode with
        | .valueAtEndTrigger => value.v - value.dv
        | .maxValue => max p.peakHeight value.v }

/-- `PartialEvent::into_event`. -/
def intoEvent (p : PartialEvent) : ThresholdEvent :=
  (p.timeOfEvent, { baseHeight := p.baseHeight, peakHeight := p.peakHeight })

end PartialEvent

/-- `DifferentialThresholdDetector` (parameters, mode and mutable state). -/
structure DifferentialThresholdDetector where
  parameters : DifferentialThresholdParameters
  peakHeightMode : PeakHeightMode
  state : DetectorState
  partialEvent : Option PartialEvent
deriving DecidableEq, Repr

namespace DifferentialThresholdDetector

/-- `DifferentialThresholdDetector::new`. -/
def new (parameters : DifferentialThresholdParameters)
    (peakHeightMode : PeakHeightMode) : DifferentialThresholdDetector :=
  { parameters := parameters
    peakHeightMode := peakHeightMode
    state := .waiting
    partialEvent := none }

/-- `DifferentialThresholdDetector::update_state`, written as a function on
the whole detector record since the Rust method mutates both `self.state` and
`self.partial_event`. -/
def updateState (d : DifferentialThresholdDetector) (time : ℚ)
    (value : TraceArray2) : DifferentialThresholdDetector :=
  match d.state with
  | .waiting =>
      if value.dv ≥ d.parameters.beginThreshold then
        let d : DifferentialThresholdDetector :=
          { d with partialEvent := some (PartialEvent.new time value) }
        if d.parameters.beginDuration = 0 then
          { d with state := .detected }
        else
          { d with state := .beginning time }
      else d
  | .beginning timeBegun =>
      if time ≥ timeBegun + d.parameters.beginDuration then
        { d with state := .detected }
      else if value.dv < d.parameters.beginThreshold then
        { d with partialEvent := none, state := .waiting }
      else d
  | .detected =>
      if value.dv ≤ d.parameters.endThreshold then
        if d.parameters.endDuration = 0 then
          if d.parameters.coolOff = 0 then
            { d with state := .waiting }
          else
            { d with state := .coolingDown time }
        else
          { d with state := .ending time }
      else d
  | .ending timeEnded =>
      if time ≥ timeEnded + d.parameters.endDuration then
        if d.parameters.coolOff = 0 then
          { d with state := .waiting }
        else
          { d with state := .coolingDown time }
      else if value.dv > d.parameters.endThreshold then
        { d with state := .detected }
      else d
  | .coolingDown timeEnded =>
      if time ≥ timeEnded + d.parameters.coolOff then
        { d with state := .waiting }
      else d

/-- `DifferentialThresholdDetector::try_take_completed_event`: take the
partial event if the state is `Ending`, `CoolingDown` or `Waiting`. -/
def tryTakeCompletedEvent (d : DifferentialThresholdDetector) :
    Option PartialEvent × DifferentialThresholdDetector :=
  match d.state with
  | .ending _ | .coolingDown _ | .waiting =>
      (d.partialEvent, { d with partialEvent := none })
  | _ => (none, d)

/-- `Detector::signal` for `DifferentialThresholdDetector`. -/
def signal (d : DifferentialThresholdDetector) (time : ℚ)
    (value : TraceArray2) :
    DifferentialThresholdDetector × Option ThresholdEvent :=
  let d := d.updateState time value
  match d.tryTakeCompletedEvent with
  | (some event, d) =>
      (d, some ((event.update d.peakHeightMode time value).intoEvent))
  | (none, d) =>
      match d.partialEvent with
      | some partialEvent =>
          ({ d with
              partialEvent := some (partialEvent.update d.peakHeightMode time value) },
            none)
      | none => (d, none)

/-- `Detector::finish` for `DifferentialThresholdDetector`: the source takes
the partial event, maps it to a `ThresholdEvent`, discards the result of the
`map`, and returns `None`. -/
def finish (d : DifferentialThresholdDetector) :
    DifferentialThresholdDetector × Option ThresholdEvent :=
  (({ d with partialEvent := none }), none)

end DifferentialThresholdDetector

/-- `EventIter::next` (`iterators/event.rs`): pull samples from the source,
feeding each to `Detector::signal`, until an event is produced; at stream end
return `Detector::finish`.  Returns the event (or `none`) together with the
remaining source and the advanced detector. -/
def eventIterNext (d : DifferentialThresholdDetector) :
    List (ℚ × TraceArray2) →
      Option ThresholdEvent × (List (ℚ × TraceArray2) × DifferentialThresholdDetector)
  | [] => ((d.finish).2, ([], (d.finish).1))
  | (t, v) :: rest =>
      match d.signal t v with
      | (d, some event) => (some event, (rest, d))
      | (d, none) => eventIterNext d rest

/-- Exhaust the event iterator: the list of all events the detector emits on
the given sample stream (`finish` never emits, see `finish`). -/
def runEvents (d : DifferentialThresholdDetector) :
    List (ℚ × TraceArray2) → List ThresholdEvent
  | [] => []
  | (t, v) :: rest =>
      match d.signal t v with
      | (d, some event) => event :: runEvents d rest
      | (d, none) => runEvents d rest

/-- Modelled from the spec: the repository's
`pulse_detection/window/finite_differences.rs` is declared in
`window/mod.rs` but its source file is absent; §4.2 of the spec describes it:
"`FiniteDifferences<N>`: maintains the last `N` values and emits
`[v, Δ¹v, …]`.  Differences are backward finite differences; time shift =
`(N−1)/2` samples."  For `N = 2` the (integer, as in the sibling windows'
`usize` arithmetic) shift `(2−1)/2 = 0` leaves times unchanged, which is what
the spec's own end-to-end scenarios and the detector unit tests require.  The
window primes on the first sample and thereafter emits the pair of the value
and its first backward difference. -/
def finiteDifferences2 : Option ℚ → List (ℚ × ℚ) → List (ℚ × TraceArray2)
  | _, [] => []
  | none, (_, v) :: rest => finiteDifferences2 (some v) rest
  | some prev, (t, v) :: rest =>
      (t, { v := v, dv := v - prev }) :: finiteDifferences2 (some v) rest

/-- The detector-test pipeline (`tests::pipeline`): enumerate the samples with
their index as time, apply `FiniteDifferences<2>`, then the detector. -/
def pipeline (data : List ℚ) (d : DifferentialThresholdDetector) :
    List ThresholdEvent :=
  runEvents d
    (finiteDifferences2 none ((List.range data.length).map (fun i => ((i : ℚ)))
      |>.zip data))

/-- The §4.4 transition table exactly as the specification states it (claim
wording): from `Waiting` on `Δv ≥ begin_threshold` to `Beginning{t₀=t}`, or
directly to `Detected` when `begin_duration = 0`; from `Detected` on
`Δv ≤ end_threshold` to `Ending{t₁=t}` when `end_duration > 0`, else to
`CoolingDown{t}` when `cool_off > 0`, else to `Waiting`; from `Ending`, once
`end_duration` has elapsed, to `CoolingDown{t}` when `cool_off > 0` else
`Waiting`, and back to `Detected` on `Δv > end_threshold` before the elapse;
from `Beginning` to `Detected` on elapse of `begin_duration` or back to
`Waiting` on `Δv < begin_threshold`; from `CoolingDown` to `Waiting` once
`cool_off` has elapsed.  This is the spec side of the refinement claim; it is
compared against `updateState`, which is translated from the source. -/
def specNextState (p : DifferentialThresholdParameters) (s : DetectorState)
    (time : ℚ) (value : TraceArray2) : DetectorState :=
  match s with
  | .waiting =>
      if value.dv ≥ p.beginThreshold then
        if p.beginDuration = 0 then .detected else .beginning time
      else .waiting
  | .beginning t0 =>
      if time - t0 ≥ p.beginDuration then .detected
      else if value.dv < p.beginThreshold then .waiting
      else .beginning t0
  | .detected =>
      if value.dv ≤ p.endThreshold then
        if p.endDuration > 0 then .ending time
        else if p.coolOff > 0 then .coolingDown time
        else .waiting
      else .detected
  | .ending t1 =>
      if time - t1 ≥ p.endDuration then
        if p.coolOff > 0 then .coolingDown time else .waiting
      else if value.dv > p.endThreshold then .detected
      else .ending t1
  | .coolingDown t1 =>
      if time - t1 ≥ p.coolOff then .waiting else .coolingDown t1

/-- The transition table with the guards the source actually tests: where the
spec table asks `end_duration > 0` and `cool_off > 0`, the source tests
`!is_zero()`, i.e. `≠ 0`, so a negative duration behaves like a positive one.
This is the amended spec side. -/
def amendedNextState (p : DifferentialThresholdParameters) (s : DetectorState)
    (time : ℚ) (value : TraceArray2) : DetectorState :=
  match s with
  | .waiting =>
      if value.dv ≥ p.beginThreshold then
        if p.beginDuration = 0 then .detected else .beginning time
      else .waiting
  | .beginning t0 =>
      if time - t0 ≥ p.beginDuration then .detected
      else if value.dv < p.beginThreshold then .waiting
      else .beginning t0
  | .detected =>
      if value.dv ≤ p.endThreshold then
        if p.endDuration ≠ 0 then .ending time
        else if p.coolOff ≠ 0 then .coolingDown time
        else .waiting
      else .detected
  | .ending t1 =>
      if time - t1 ≥ p.endDuration then
        if p.coolOff ≠ 0 then .coolingDown time else .waiting
      else if value.dv > p.endThreshold then .detected
      else .ending t1
  | .coolingDown t1 =>
      if time - t1 ≥ p.coolOff then .waiting else .coolingDown t1

/-- Spec side for claim C3: the running maximum of the first derivative over
the samples a partial event has observed, starting with the sample it was
created from. -/
def maxDerivObserved (v0 : TraceArray2) (rest : List (ℚ × TraceArray2)) : ℚ :=
  rest.foldl (fun m s => max m s.2.dv) v0.dv

/-- Spec side for claim C3, following the spec's words: "`argmax Δv` chooses
the **first** sample that attains the maximum".  The time of the first
observed sample whose derivative equals the maximum derivative observed. -/
def firstArgmaxTime (t0 : ℚ) (v0 : TraceArray2)
    (rest : List (ℚ × TraceArray2)) : ℚ :=
  ((((t0, v0) :: rest).find?
      (fun s => decide (s.2.dv = maxDerivObserved v0 rest))).getD (t0, v0)).1

/-- Folding `PartialEvent::update` over the samples observed after creation. -/
def foldUpdate (mode : PeakHeightMode) (t0 : ℚ) (v0 : TraceArray2)
    (rest : List (ℚ × TraceArray2)) : PartialEvent :=
  rest.foldl (fun p s => p.update mode s.1 s.2) (PartialEvent.new t0 v0)

/-! ## Pulse model (`simulator/.../pulses.rs`)

Embedded over `ℝ`.  `libm::erfc` is an external C function; it enters as an
explicit parameter `erfc : ℝ → ℝ` of the definitions that call it.  The
parameters of a `PulseEvent` are drawn from `FloatRandomDistribution`s whose
RNG the source seeds from the wall clock (see the distribution model below),
so the `sample` embeddings take the already-drawn parameter values as
arguments and perform the derived-quantity computation of the source. -/

/-- Rust's `x as Time` (`Time = u32`) cast of an `f64`: truncation toward
zero, saturating at `0` and `u32::MAX`. -/
noncomputable def toTime (x : ℝ) : ℕ :=
  min (Int.toNat ⌊x⌋) (2 ^ 32 - 1)

/-- `PulseEvent` with the per-variant numeric fields of the source. -/
inductive PulseEvent where
  | flat (start stop amplitude : ℝ)
  | triangular (start peakTime stop amplitude : ℝ)
  | gaussian (start stop mean sd peakAmplitude : ℝ)
  | backToBackExp (start stop peakTime falling rising normalisingFactor
      risingSpread fallingSpread frac1Sqrt2Spread : ℝ)

namespace PulseEvent

/-- `PulseEvent::get_start`: the `start` field cast to `Time`. -/
noncomputable def getStart : PulseEvent → ℕ
  | flat start _ _ => toTime start
  | triangular start _ _ _ => toTime start
  | gaussian start _ _ _ _ => toTime start
  | backToBackExp start _ _ _ _ _ _ _ _ => toTime start

/-- `PulseEvent::get_end`: the `stop` field cast to `Time`. -/
noncomputable def getEnd : PulseEvent → ℕ
  | flat _ stop _ => toTime stop
  | triangular _ _ stop _ => toTime stop
  | gaussian _ stop _ _ _ => toTime stop
  | backToBackExp _ stop _ _ _ _ _ _ _ => toTime stop

open scoped Classical in
/-- `PulseEvent::get_value_at`.  The boundary guard compares the `Time`
(u32) casts of the query time and of the stored `start`/`stop`, and the
back-to-back-exponential branch guards each `exp` factor by whether the
accompanying `erfc` value is zero, exactly as the source does. -/
noncomputable def getValueAt (erfc : ℝ → ℝ) (e : PulseEvent) (time : ℝ) : ℝ :=
  if e.getStart > toTime time ∨ toTime time > e.getEnd then 0
  else
    match e with
    | flat _ _ amplitude => amplitude
    | triangular start peakTime stop amplitude =>
        if time < peakTime then amplitude * (time - start) / (peakTime - start)
        else amplitude * (stop - time) / (stop - peakTime)
    | gaussian _ _ mean sd peakAmplitude =>
        peakAmplitude * Real.exp (-(0.5 * (time - mean) / sd) ^ 2)
    | backToBackExp _ _ peakTime falling rising normalisingFactor
        risingSpread fallingSpread frac1Sqrt2Spread =>
        let timeShift := time - peakTime
        let risingErfc := erfc ((risingSpread + timeShift) * frac1Sqrt2Spread)
        let risingExp :=
          if risingErfc ≠ 0 then Real.exp (rising * (0.5 * risingSpread + timeShift))
          else 0
        let fallingErfc := erfc ((fallingSpread - timeShift) * frac1Sqrt2Spread)
        let fallingExp :=
          if fallingErfc ≠ 0 then Real.exp (falling * (0.5 * fallingSpread - timeShift))
          else 0
        normalisingFactor * (risingExp * risingErfc + fallingExp * fallingErfc)

end PulseEvent

/-- The `PulseTemplate::Flat` arm of `PulseEvent::sample`, applied to the
drawn `start`, `width` and `height` values. -/
def sampleFlat (start width height : ℝ) : PulseEvent :=
  .flat start (start + width) height

open scoped Classical in
/-- The `normalising_factor` block of the `BackToBackExp` arm of
`PulseEvent::sample`: `peak_height / (e^{½·r·rs}·erfc(rs·c) +
e^{½·f·fs}·erfc(fs·c))`, each `exp` factor forced to zero when the
accompanying `erfc` value is zero, exactly as the source does. -/
noncomputable def b2bNormalisingFactor (erfc : ℝ → ℝ)
    (peakHeight spread falling rising : ℝ) : ℝ :=
  let risingSpread := rising * spread ^ 2
  let fallingSpread := falling * spread ^ 2
  let frac1Sqrt2Spread := (Real.sqrt 2)⁻¹ / spread
  let risingErfc := erfc (risingSpread * frac1Sqrt2Spread)
  let risingExp :=
    if risingErfc = 0 then 0 else Real.exp (0.5 * rising * risingSpread)
  let fallingErfc := erfc (fallingSpread * frac1Sqrt2Spread)
  let fallingExp :=
    if fallingErfc = 0 then 0 else Real.exp (0.5 * falling * fallingSpread)
  peakHeight / (risingExp * risingErfc + fallingExp * fallingErfc)

/-- The `PulseTemplate::BackToBackExp` arm of `PulseEvent::sample`, applied to
the drawn `peak_height`, `peak_time`, `spread`, `falling` and `rising`
values: the derived spreads, the normalising factor and the `start`/`stop`
support bounds. -/
noncomputable def sampleBackToBackExp (erfc : ℝ → ℝ)
    (peakHeight peakTime spread falling rising : ℝ) : PulseEvent :=
  let risingSpread := rising * spread ^ 2
  let fallingSpread := falling * spread ^ 2
  let frac1Sqrt2Spread := (Real.sqrt 2)⁻¹ / spread
  let normalisingFactor := b2bNormalisingFactor erfc peakHeight spread falling rising
  .backToBackExp
    (peakTime - 0.5 * risingSpread - Real.log normalisingFactor / rising)
    (peakTime + 0.5 * fallingSpread + Real.log normalisingFactor / falling)
    peakTime falling rising normalisingFactor risingSpread fallingSpread
    frac1Sqrt2Spread

/-! ## Numeric expressions and random distributions (`utils.rs`)

`NumExpression<T>` is a literal, an environment-variable lookup, or the affine
transform `frame * scale + translate`.  The environment is modelled as a map
from variable names to already-parsed values (`none` for an unset or
unparsable variable, both of which error in the source).

`FloatRandomDistribution::sample` constructs a fresh `StdRng` seeded with
`Utc::now().timestamp_subsec_nanos()` on every call.  The embedding makes
that explicit: the draws of the seeded generator are an abstract `RngDraws`
record of functions of the seed, and `sample` takes the sub-second-nanosecond
clock reading it uses as that seed. -/

/-- `NumExpression<usize>` (also used for `Time` bounds). -/
inductive NatExpression where
  | const (v : ℕ)
  | fromEnvVar (name : String)
  | numFunc (scale translate : ℕ)
deriving DecidableEq, Repr

/-- `NumExpression::value` for `usize`: a literal, an environment lookup, or
`transform(frame) = frame * scale + translate`. -/
def NatExpression.value (env : String → Option ℕ) :
    NatExpression → ℕ → Except String ℕ
  | .const v, _ => .ok v
  | .fromEnvVar name, _ =>
      match env name with
      | some v => .ok v
      | none => .error name
  | .numFunc scale translate, frame => .ok (frame * scale + translate)

/-- `NumExpression<f64>`. -/
inductive QExpression where
  | const (v : ℚ)
  | fromEnvVar (name : String)
  | numFunc (scale translate : ℚ)
deriving DecidableEq, Repr

/-- `NumExpression::value` for `f64`. -/
def QExpression.value (env : String → Option ℚ) :
    QExpression → ℕ → Except String ℚ
  | .const v, _ => .ok v
  | .fromEnvVar name, _ =>
      match env name with
      | some v => .ok v
      | none => .error name
  | .numFunc scale translate, frame => .ok ((frame : ℚ) * scale + translate)

/-- The draws of `rand::rngs::StdRng`, as functions of the seed the source
constructs.  `uniformRange min max seed` is `random_range(min..max)`,
`normal mean sd seed` a `Normal` sample, `expRate rate seed` an `Exp`
sample. -/
structure RngDraws where
  uniformRange : ℚ → ℚ → ℕ → ℚ
  normal : ℚ → ℚ → ℕ → ℚ
  expRate : ℚ → ℕ → ℚ

/-- `FloatRandomDistribution`. -/
inductive FloatRandomDistribution where
  | constantFloat (value : QExpression)
  | uniformFloat (min max : QExpression)
  | normal (mean sd : QExpression)
  | exponential (lifetime : QExpression)
deriving DecidableEq, Repr

/-- `FloatRandomDistribution::sample`: the non-constant arms seed a fresh
`StdRng` from the sub-second-nanosecond wall-clock reading
(`clockSubsecNanos`) and draw from it; only the constant arm ignores the
clock.  (The distribution-validity errors of `Normal::new`/`Exp::new` are
not modelled; they do not affect the dependence on the clock.) -/
def FloatRandomDistribution.sample (rng : RngDraws)
    (env : String → Option ℚ) (d : FloatRandomDistribution) (frame : ℕ)
    (clockSubsecNanos : ℕ) : Except String ℚ :=
  match d with
  | .constantFloat v => v.value env frame
  | .uniformFloat mn mx => do
      .ok (rng.uniformRange (← mn.value env frame) (← mx.value env frame)
        clockSubsecNanos)
  | .normal mean sd => do
      .ok (rng.normal (← mean.value env frame) (← sd.value env frame)
        clockSubsecNanos)
  | .exponential lifetime => do
      .ok (rng.expRate (1 / (← lifetime.value env frame)) clockSubsecNanos)

/-! ## Noise model (`noise.rs`) -/

/-- `NoiseSource`: bounds interval (of `Time` expressions), and the smoothing
window length expression.  The uniform/gaussian attribute draw is abstracted
into the per-call `draw` argument of `NoiseSource.sample`, since the source
reseeds its generator from the wall clock (as for
`FloatRandomDistribution`). -/
structure NoiseSource where
  boundsMin : NatExpression
  boundsMax : NatExpression
  smoothingWindowLength : NatExpression
deriving Repr

/-- Modelled from the spec: `Interval::<NumExpression<Time>>::is_in(time,
frame)` is called by `NoiseSource::sample` but its impl is not under `src/`;
§4.7 says "`NoiseSource.sample(t, frame)` returns zero outside `bounds`",
so the bounds expressions are evaluated at the frame and the time is tested
against the inclusive interval.  `draw` is the value the RNG would produce
for this call. -/
def NoiseSource.sample (src : NoiseSource) (env : String → Option ℕ)
    (draw : ℚ) (time frame : ℕ) : Except String ℚ :=
  match src.boundsMin.value env frame with
  | .error e => .error e
  | .ok mn =>
      match src.boundsMax.value env frame with
      | .error e => .error e
      | .ok mx => if mn ≤ time ∧ time ≤ mx then .ok draw else .ok 0

/-- `Noise::noisify`: evaluate the window length at this frame, evict the
front of the buffer when the buffer length equals it, push the freshly drawn
sample, and return the input plus the mean of the buffer.  The buffer
(`prev`, a `VecDeque`) is threaded explicitly, front first. -/
def noisify (src : NoiseSource) (env : String → Option ℕ) (draw : ℚ)
    (prev : List ℚ) (value : ℚ) (time frame : ℕ) :
    Except String (ℚ × List ℚ) :=
  match src.smoothingWindowLength.value env frame with
  | .error e => .error e
  | .ok windowLen =>
      let prev := if prev.length = windowLen then prev.drop 1 else prev
      match src.sample env draw time frame with
      | .error e => .error e
      | .ok sampled =>
          let prev := prev ++ [sampled]
          .ok (value + prev.sum / (prev.length : ℚ), prev)

/-- A sequence of `noisify` calls: each element of `calls` is the
`(draw, value, time, frame)` of one call; returns the final buffer. -/
def noisifyRun (src : NoiseSource) (env : String → Option ℕ)
    (calls : List (ℚ × ℚ × ℕ × ℕ)) (prev : List ℚ) :
    Except String (List ℚ) :=
  match calls with
  | [] => .ok prev
  | (draw, value, time, frame) :: rest =>
      match noisify src env draw prev value time frame with
      | .error e => .error e
      | .ok (_, prev) => noisifyRun src env rest prev

/-! ## Digitiser configuration (`digitiser_config.rs`) -/

/-- `NumConstant<usize>`. -/
inductive NumConstant where
  | const (v : ℕ)
  | fromEnvVar (name : String)
deriving DecidableEq, Repr

/-- `NumConstant::value`. -/
def NumConstant.value (env : String → Option ℕ) :
    NumConstant → Except String ℕ
  | .const v => .ok v
  | .fromEnvVar name =>
      match env name with
      | some v => .ok v
      | none => .error name

/-- An inclusive channel interval (`Interval<Channel>`). -/
structure IntervalNat where
  min : ℕ
  max : ℕ
deriving DecidableEq, Repr

/-- `Digitiser` (manual configuration entry). -/
structure Digitiser where
  id : ℕ
  channels : IntervalNat
deriving DecidableEq, Repr

/-- `SimulationEngineDigitiser` (its definition lives in the engine module
outside `src/`; the source constructs it from an id and a channel-index
list, which is all the configuration code uses). -/
structure SimulationEngineDigitiser where
  id : ℕ
  channelIndices : List ℕ
deriving DecidableEq, Repr

/-- `DigitiserConfig`. -/
inductive DigitiserConfig where
  | autoAggregatedFrame (numChannels : NumConstant)
  | manualAggregatedFrame (channels : List ℕ)
  | autoDigitisers (numDigitisers numChannelsPerDigitiser : NumConstant)
  | manualDigitisers (digitisers : List Digitiser)
deriving DecidableEq, Repr

/-- `DigitiserConfig::generate_channels`. -/
def generateChannels (env : String → Option ℕ) :
    DigitiserConfig → Except String (List ℕ)
  | .autoAggregatedFrame numChannels => do
      pure (List.range (← numChannels.value env))
  | .manualAggregatedFrame channels => pure channels
  | .autoDigitisers numDigitisers numChannelsPerDigitiser => do
      pure (List.range ((← numDigitisers.value env) *
        (← numChannelsPerDigitiser.value env)))
  | .manualDigitisers digitisers =>
      pure (digitisers.flatMap fun dg =>
        List.range' dg.channels.min (dg.channels.max + 1 - dg.channels.min))

/-- `DigitiserConfig::generate_digitisers`.  In the `AutoDigitisers` arm the
source evaluates `num_channels_per_digitiser.value()?` twice per digitiser;
both evaluations are kept. -/
def generateDigitisers (env : String → Option ℕ) :
    DigitiserConfig → Except String (List SimulationEngineDigitiser)
  | .autoAggregatedFrame _ => pure []
  | .manualAggregatedFrame _ => pure []
  | .autoDigitisers numDigitisers numChannelsPerDigitiser => do
      let d ← numDigitisers.value env
      (List.range d).mapM fun i => do
        let c1 ← numChannelsPerDigitiser.value env
        let c2 ← numChannelsPerDigitiser.value env
        pure (⟨i, List.range' (i * c1) ((i + 1) * c2 - i * c1)⟩ :
          SimulationEngineDigitiser)
  | .manualDigitisers digitisers =>
      pure (digitisers.map fun dg =>
        { id := dg.id, channelIndices := [] })

/-! ## Advanced-pipeline amplitude filters (`channels.rs`) -/

/-- `TimeValueOptional<T>` from `pulse.rs`. -/
structure TimeValueOptional (α : Type) where
  time : Option ℚ
  value : Option α
deriving DecidableEq, Repr

/-- `Pulse` from `pulse.rs` (the `end` field is named `pulseEnd` here since
`end` is reserved in Lean). -/
structure Pulse where
  start : TimeValueOptional ℚ
  pulseEnd : TimeValueOptional ℚ
  peak : TimeValueOptional ℚ
  steepestRise : TimeValueOptional TraceArray2
  sharpestFall : TimeValueOptional TraceArray2
deriving DecidableEq, Repr

/-- Rust's `Option::zip`. -/
def optionZip {α β : Type} : Option α → Option β → Option (α × β)
  | some a, some b => some (a, b)
  | _, _ => none

/-- The `min_amplitude` filter of `find_advanced_events`:
`Option::zip(min_amplitude, pulse.peak.value).map(|(min, val)| min <= val)
.unwrap_or(true)`. -/
def minAmplitudeFilter (minAmplitude : Option ℚ) (pulse : Pulse) : Bool :=
  ((optionZip minAmplitude pulse.peak.value).map
    (fun mv => decide (mv.1 ≤ mv.2))).getD true

/-- The `max_amplitude` filter of `find_advanced_events`:
`Option::zip(max_amplitude, pulse.peak.value).map(|(max, val)| max >= val)
.unwrap_or(true)`. -/
def maxAmplitudeFilter (maxAmplitude : Option ℚ) (pulse : Pulse) : Bool :=
  ((optionZip maxAmplitude pulse.peak.value).map
    (fun mv => decide (mv.1 ≥ mv.2))).getD true

/-- The two chained `filter` stages of `find_advanced_events`. -/
def filterPulsesByAmplitude (minAmplitude maxAmplitude : Option ℚ)
    (pulses : List Pulse) : List Pulse :=
  (pulses.filter (minAmplitudeFilter minAmplitude)).filter
    (maxAmplitudeFilter maxAmplitude)

/-! ## Theorems -/

/-- C1 (counterexample): the spec's §4.4 table sends `Detected` to `Waiting`
when `Δv ≤ end_threshold`, `end_duration > 0` fails and `cool_off > 0` fails,
but with `end_duration = −1` the source tests only `is_zero()` and moves to
`Ending`: at parameters `(begin_threshold 0, begin_duration 0,
end_threshold 0, end_duration −1, cool_off 0)` and sample `(t = 1, [0, 0])`
the code's transition differs from the table's. -/
theorem updateState_violates_spec_table_at_negative_end_duration :
    (DifferentialThresholdDetector.updateState
        ⟨⟨0, 0, 0, -1, 0⟩, .maxValue, .detected, none⟩ 1 ⟨0, 0⟩).state
        = .ending 1 ∧
      specNextState ⟨0, 0, 0, -1, 0⟩ .detected 1 ⟨0, 0⟩ = .waiting ∧
      DetectorState.ending 1 ≠ DetectorState.waiting := by
  refine ⟨?_, ?_, by simp⟩ <;>
    norm_num [DifferentialThresholdDetector.updateState, specNextState]

/-- C1 (amended): every transition of `update_state` follows the §4.4 table
with the guards `end_duration > 0` and `cool_off > 0` read as
`end_duration ≠ 0` and `cool_off ≠ 0` (the source tests `is_zero()`, so a
negative duration behaves like a positive one); no transition outside that
table ever occurs, for every state, sample and parameter setting. -/
theorem updateState_eq_amendedNextState
    (p : DifferentialThresholdParameters) (mode : PeakHeightMode)
    (st : DetectorState) (pe : Option PartialEvent) (t : ℚ)
    (v : TraceArray2) :
    (DifferentialThresholdDetector.updateState ⟨p, mode, st, pe⟩ t v).state
      = amendedNextState p st t v := by
  cases st <;>
    simp only [DifferentialThresholdDetector.updateState, amendedNextState] <;>
    split_ifs <;> first | rfl | (exfalso; first | linarith | simp_all)

/-- C2: with `begin_threshold = 2.5`, `end_threshold = 0`,
`begin_duration = 1`, `cool_off = 0`, `end_duration = 0` and peak-height mode
`ValueAtEndTrigger`, the differential-threshold detector after a
`FiniteDifferences<2>` window over `[4,3,2,5,8,12,2,1,5,7,2,6,5,8,8,11,0]`
(time = sample index) emits exactly the events
`(5, 2, 12), (8, 1, 7), (11, 2, 8)`, in that order. -/
theorem pipeline_differential_threshold_scenario :
    pipeline [4, 3, 2, 5, 8, 12, 2, 1, 5, 7, 2, 6, 5, 8, 8, 11, 0]
        (DifferentialThresholdDetector.new ⟨5 / 2, 1, 0, 0, 0⟩
          .valueAtEndTrigger)
      = [(5, ⟨2, 12⟩), (8, ⟨1, 7⟩), (11, ⟨2, 8⟩)] := by
  norm_num [pipeline, finiteDifferences2, runEvents,
    DifferentialThresholdDetector.new, DifferentialThresholdDetector.signal,
    DifferentialThresholdDetector.updateState,
    DifferentialThresholdDetector.tryTakeCompletedEvent,
    PartialEvent.new, PartialEvent.update, PartialEvent.intoEvent,
    List.range, List.range.loop, List.zip, List.zipWith]

/-- C7: `finish()` returns `None` and discards any in-progress partial event,
for every parameter setting and detector state; consequently the event
iterator applied to an empty input yields `None` on the first call to
`next()`. -/
theorem finish_discards_partial_and_empty_input_yields_none
    (d : DifferentialThresholdDetector) :
    d.finish.2 = none ∧ d.finish.1.partialEvent = none ∧
      (eventIterNext d []).1 = none :=
  ⟨rfl, rfl, rfl⟩

/-- The initial value of a derivative fold is bounded by the fold. -/
theorem le_foldlMaxDeriv (l : List (ℚ × TraceArray2)) (a : ℚ) :
    a ≤ l.foldl (fun m s => max m s.2.dv) a := by
  induction l generalizing a with
  | nil => exact le_refl a
  | cons s l ih => exact le_trans (le_max_left a s.2.dv) (ih _)

/-- Every member's derivative is bounded by the derivative fold. -/
theorem mem_le_foldlMaxDeriv (l : List (ℚ × TraceArray2)) (a : ℚ)
    (x : ℚ × TraceArray2) (hx : x ∈ l) :
    x.2.dv ≤ l.foldl (fun m s => max m s.2.dv) a := by
  induction l generalizing a with
  | nil => cases hx
  | cons y l ih =>
      rcases List.mem_cons.mp hx with h | h
      · subst h
        exact le_trans (le_max_right a x.2.dv) (le_foldlMaxDeriv l _)
      · exact ih _ h

/-- The derivative fold is attained: it equals the initial value or some
member's derivative. -/
theorem foldlMaxDeriv_attained (l : List (ℚ × TraceArray2)) (a : ℚ) :
    l.foldl (fun m s => max m s.2.dv) a = a ∨
      ∃ x ∈ l, l.foldl (fun m s => max m s.2.dv) a = x.2.dv := by
  induction l generalizing a with
  | nil => exact Or.inl rfl
  | cons y l ih =>
      show l.foldl _ (max a y.2.dv) = a ∨ ∃ x ∈ y :: l, _
      rcases ih (max a y.2.dv) with h | ⟨x, hx, he⟩
      · rcases max_cases a y.2.dv with ⟨hm, _⟩ | ⟨hm, _⟩
        · exact Or.inl (h.trans hm)
        · exact Or.inr ⟨y, List.mem_cons_self _ _, h.trans hm⟩
      · exact Or.inr ⟨x, List.mem_cons_of_mem _ hx, he⟩

/-- How `PartialEvent.update` changes the stored maximum-derivative sample. -/
theorem update_traceArrayAtMaxDeriv (p : PartialEvent)
    (mode : PeakHeightMode) (t : ℚ) (v : TraceArray2) :
    (p.update mode t v).traceArrayAtMaxDeriv =
      if p.traceArrayAtMaxDeriv.dv < v.dv then v
      else p.traceArrayAtMaxDeriv := by
  simp only [PartialEvent.update]
  split <;> rfl

/-- How `PartialEvent.update` changes the stored event time. -/
theorem update_timeOfEvent (p : PartialEvent) (mode : PeakHeightMode)
    (t : ℚ) (v : TraceArray2) :
    (p.update mode t v).timeOfEvent =
      if p.traceArrayAtMaxDeriv.dv < v.dv then t
      else p.timeOfEvent := by
  simp only [PartialEvent.update]
  split <;> rfl

/-- Fold invariant for C3: the folded partial event stores the running
maximum derivative and the time of its first occurrence. -/
theorem foldUpdate_argmax_invariant (mode : PeakHeightMode) (t0 : ℚ)
    (v0 : TraceArray2) (rest : List (ℚ × TraceArray2)) :
    (foldUpdate mode t0 v0 rest).traceArrayAtMaxDeriv.dv
        = maxDerivObserved v0 rest ∧
      (foldUpdate mode t0 v0 rest).timeOfEvent = firstArgmaxTime t0 v0 rest := by
  induction rest using List.reverseRecOn with
  | nil =>
      constructor
      · rfl
      · simp [firstArgmaxTime, maxDerivObserved, foldUpdate, PartialEvent.new]
  | append_singleton l s ih =>
      obtain ⟨ihmax, ihtime⟩ := ih
      have hfold : foldUpdate mode t0 v0 (l ++ [s])
          = (foldUpdate mode t0 v0 l).update mode s.1 s.2 := by
        simp [foldUpdate, List.foldl_append]
      have hmax : maxDerivObserved v0 (l ++ [s])
          = max (maxDerivObserved v0 l) s.2.dv := by
        simp [maxDerivObserved, List.foldl_append]
      by_cases hlt : (foldUpdate mode t0 v0 l).traceArrayAtMaxDeriv.dv < s.2.dv
      · have hMlt : maxDerivObserved v0 l < s.2.dv := ihmax ▸ hlt
        have hmax' : maxDerivObserved v0 (l ++ [s]) = s.2.dv := by
          rw [hmax]; exact max_eq_right hMlt.le
        have hprefix :
            ((t0, v0) :: l).find?
              (fun x => decide (x.2.dv = maxDerivObserved v0 (l ++ [s]))) = none := by
          rw [List.find?_eq_none]
          intro x hx
          rcases List.mem_cons.mp hx with h | h
          · subst h
            simp only [decide_eq_true_eq, hmax']
            exact ne_of_lt (lt_of_le_of_lt (le_foldlMaxDeriv l _) hMlt)
          · simp only [decide_eq_true_eq, hmax']
            exact ne_of_lt (lt_of_le_of_lt (mem_le_foldlMaxDeriv l _ x h) hMlt)
        constructor
        · rw [hfold, update_traceArrayAtMaxDeriv, if_pos hlt, hmax']
        · rw [hfold, update_timeOfEvent, if_pos hlt]
          unfold firstArgmaxTime
          rw [show ((t0, v0) :: (l ++ [s])) = ((t0, v0) :: l) ++ [s] by simp,
            List.find?_append, hprefix]
          simp [hmax']
      · have hsle : s.2.dv ≤ maxDerivObserved v0 l := ihmax ▸ not_lt.mp hlt
        have hmax' : maxDerivObserved v0 (l ++ [s]) = maxDerivObserved v0 l := by
          rw [hmax]; exact max_eq_left hsle
        have hattain : ∃ x ∈ (t0, v0) :: l,
            (fun x => decide (x.2.dv = maxDerivObserved v0 l)) x = true := by
          rcases foldlMaxDeriv_attained l v0.dv with h | ⟨x, hx, he⟩
          · exact ⟨(t0, v0), List.mem_cons_self _ _, by simp [maxDerivObserved, h]⟩
          · exact ⟨x, List.mem_cons_of_mem _ hx, by simp [maxDerivObserved, he.symm]⟩
        obtain ⟨y, hy⟩ := Option.isSome_iff_exists.mp
          (List.find?_isSome.mpr hattain)
        constructor
        · rw [hfold, update_traceArrayAtMaxDeriv, if_neg hlt, ihmax, hmax']
        · rw [hfold, update_timeOfEvent, if_neg hlt, ihtime]
          unfold firstArgmaxTime
          rw [hmax',
            show ((t0, v0) :: (l ++ [s])) = ((t0, v0) :: l) ++ [s] by simp,
            List.find?_append, hy]
          rfl

/-- C3: for every peak-height mode, creation sample `(t₀, v₀)` and list of
subsequently observed samples, the `time_of_event` of the partial event built
by `PartialEvent::new` followed by `PartialEvent::update` on each sample is
the time of the **first** observed sample whose first derivative attains the
maximum observed derivative (the stored maximum is replaced only on a
strictly greater derivative); hence every emitted event carries that time. -/
theorem foldUpdate_timeOfEvent_eq_firstArgmaxTime (mode : PeakHeightMode)
    (t0 : ℚ) (v0 : TraceArray2) (rest : List (ℚ × TraceArray2)) :
    (foldUpdate mode t0 v0 rest).timeOfEvent = firstArgmaxTime t0 v0 rest :=
  (foldUpdate_argmax_invariant mode t0 v0 rest).2

/-- Collecting a list of pure `Except` computations succeeds with the list
of their values (Rust's `collect::<Result<Vec<_>, _>>()` on an iterator of
`Ok` values). -/
theorem mapM_pure_except {α β : Type} (l : List α) (f : α → β) :
    (l.mapM fun a => (pure (f a) : Except String β)) = .ok (l.map f) := by
  induction l with
  | nil => rfl
  | cons a l ih => rw [List.mapM_cons, ih]; rfl

/-- `bind` on a successful `Except` computation. -/
theorem ok_bind {α β : Type} (a : α) (f : α → Except String β) :
    (Except.ok a : Except String α) >>= f = f a := rfl

/-- `generate_digitisers` on `AutoDigitisers` with constant counts: digitiser
`i` owns the half-open channel-index range `i·C..(i+1)·C`. -/
theorem generateDigitisers_auto (env : String → Option ℕ) (D C : ℕ) :
    generateDigitisers env (.autoDigitisers (.const D) (.const C))
      = .ok ((List.range D).map fun i =>
          { id := i, channelIndices := List.range' (i * C) ((i + 1) * C - i * C) }) := by
  simp only [generateDigitisers, NumConstant.value, ok_bind]
  rw [mapM_pure_except]

/-- `generate_channels` on `AutoDigitisers` with constant counts: the
channels are numbered `0..D·C`. -/
theorem generateChannels_auto (env : String → Option ℕ) (D C : ℕ) :
    generateChannels env (.autoDigitisers (.const D) (.const C))
      = .ok (List.range (D * C)) := by
  simp only [generateChannels, NumConstant.value, ok_bind]
  rfl

set_option maxRecDepth 4096 in
/-- C9: for an `AutoDigitisers` configuration with 32 digitisers of 8
channels each, `generate_channels` returns exactly the 256 channels
`0..256`, and `generate_digitisers` returns exactly 32 digitisers where
digitiser `d` owns the contiguous channel indices `d·8..(d+1)·8`; together
the digitisers' channel indices partition `0..256` contiguously. -/
theorem autoDigitisers_32x8_channels_partition (env : String → Option ℕ) :
    generateChannels env (.autoDigitisers (.const 32) (.const 8))
        = .ok (List.range 256) ∧
      generateDigitisers env (.autoDigitisers (.const 32) (.const 8))
        = .ok ((List.range 32).map fun d =>
            { id := d, channelIndices := List.range' (d * 8) 8 }) ∧
      (((List.range 32).map fun d =>
          ({ id := d, channelIndices := List.range' (d * 8) 8 } :
            SimulationEngineDigitiser)).flatMap fun dg => dg.channelIndices)
        = List.range 256 := by
  refine ⟨by rw [generateChannels_auto], ?_, by decide⟩
  rw [generateDigitisers_auto]
  refine congrArg Except.ok (List.map_congr_left ?_)
  intro i _
  have h8 : (i + 1) * 8 - i * 8 = 8 := by omega
  rw [h8]

/-- C10: every assembled pulse whose peak value is absent passes both the
`min_amplitude` and the `max_amplitude` filter of the advanced pipeline and
is emitted, whatever amplitude bounds are configured. -/
theorem pulse_without_peak_passes_amplitude_filters
    (minAmplitude maxAmplitude : Option ℚ) (pulses : List Pulse) (p : Pulse)
    (hmem : p ∈ pulses) (hnone : p.peak.value = none) :
    p ∈ filterPulsesByAmplitude minAmplitude maxAmplitude pulses := by
  have hmin : minAmplitudeFilter minAmplitude p = true := by
    cases minAmplitude <;> simp [minAmplitudeFilter, optionZip, hnone]
  have hmax : maxAmplitudeFilter maxAmplitude p = true := by
    cases maxAmplitude <;> simp [maxAmplitudeFilter, optionZip, hnone]
  exact List.mem_filter.mpr ⟨List.mem_filter.mpr ⟨hmem, hmin⟩, hmax⟩

/-- Witness for `pulse_without_peak_passes_amplitude_filters`: a pulse with
no peak value passes both filters with bounds `[5, 10]` configured. -/
theorem pulse_without_peak_passes_amplitude_filters_witness :
    (⟨⟨none, none⟩, ⟨none, none⟩, ⟨none, none⟩, ⟨none, none⟩,
        ⟨none, none⟩⟩ : Pulse)
      ∈ filterPulsesByAmplitude (some 5) (some 10)
        [⟨⟨none, none⟩, ⟨none, none⟩, ⟨none, none⟩, ⟨none, none⟩,
          ⟨none, none⟩⟩] :=
  pulse_without_peak_passes_amplitude_filters (some 5) (some 10) _ _
    (List.mem_singleton.mpr rfl) rfl

/-- Characterisation of one successful `noisify` call: the window length is
evaluated at this call's frame, the front of the buffer is evicted exactly
when the buffer length equals it, exactly one freshly drawn sample is
appended, and the returned value is the input plus the mean of the new
buffer. -/
theorem noisify_ok_characterisation (src : NoiseSource)
    (env : String → Option ℕ) (draw : ℚ) (prev : List ℚ) (value : ℚ)
    (time frame : ℕ) (wl : ℕ) (out : ℚ) (newPrev : List ℚ)
    (hwl : src.smoothingWindowLength.value env frame = .ok wl)
    (hok : noisify src env draw prev value time frame = .ok (out, newPrev)) :
    ∃ sampled, src.sample env draw time frame = .ok sampled ∧
      newPrev = (if prev.length = wl then prev.drop 1 else prev) ++ [sampled] ∧
      out = value + newPrev.sum / (newPrev.length : ℚ) := by
  simp only [noisify, hwl] at hok
  cases hsample : src.sample env draw time frame with
  | error e => simp only [hsample] at hok; simp at hok
  | ok sampled =>
      simp only [hsample, Except.ok.injEq, Prod.mk.injEq] at hok
      exact ⟨sampled, rfl, hok.2.symm, by rw [← hok.1, hok.2]⟩

/-- C8 (amended): a `noisify` call pushes exactly one fresh sample, evicts
the oldest sample exactly when the buffer length equals the window length
evaluated at that call, and returns the input plus the mean of the buffer;
when every call of a sequence evaluates the same window length `w ≥ 1`, a
buffer starting within the bound (e.g. empty) never exceeds length `w`.
(The bound can fail when a frame-dependent window length shrinks between
calls, see the counterexample.) -/
theorem noisify_mechanics :
    (∀ (src : NoiseSource) (env : String → Option ℕ) (draw : ℚ)
        (prev : List ℚ) (value : ℚ) (time frame wl : ℕ) (out : ℚ)
        (newPrev : List ℚ),
        src.smoothingWindowLength.value env frame = .ok wl →
        noisify src env draw prev value time frame = .ok (out, newPrev) →
        ∃ sampled, src.sample env draw time frame = .ok sampled ∧
          newPrev = (if prev.length = wl then prev.drop 1 else prev) ++ [sampled] ∧
          out = value + newPrev.sum / (newPrev.length : ℚ)) ∧
    (∀ (src : NoiseSource) (env : String → Option ℕ) (w : ℕ)
        (calls : List (ℚ × ℚ × ℕ × ℕ)) (prev₀ final : List ℚ),
        (∀ c ∈ calls,
          src.smoothingWindowLength.value env c.2.2.2 = .ok w) →
        1 ≤ w → prev₀.length ≤ w →
        noisifyRun src env calls prev₀ = .ok final →
        final.length ≤ w) := by
  refine ⟨noisify_ok_characterisation, ?_⟩
  intro src env w calls
  induction calls with
  | nil =>
      intro prev₀ final _ _ hlen hrun
      cases hrun
      exact hlen
  | cons c rest ih =>
      intro prev₀ final hw hw1 hlen hrun
      obtain ⟨draw, value, time, frame⟩ := c
      simp only [noisifyRun] at hrun
      cases hcall : noisify src env draw prev₀ value time frame with
      | error e => simp only [hcall] at hrun; simp at hrun
      | ok p =>
          obtain ⟨out, prev'⟩ := p
          simp only [hcall] at hrun
          obtain ⟨sampled, -, hprev', -⟩ :=
            noisify_ok_characterisation src env draw prev₀ value time frame w
              out prev' (hw _ (List.mem_cons_self _ _)) hcall
          have hlen' : prev'.length ≤ w := by
            rw [hprev']
            by_cases hfull : prev₀.length = w
            · simp [hfull]
              omega
            · simp only [if_neg hfull, List.length_append, List.length_cons,
                List.length_nil]
              omega
          exact ih prev' final (fun c hc => hw _ (List.mem_cons_of_mem _ hc))
            hw1 hlen' hrun

/-- Witness for `noisify_mechanics`: one call with draw 1 on an empty buffer
under a constant window of length 2 appends the sample and returns the mean,
and a one-call run keeps the buffer within the window bound. -/
theorem noisify_mechanics_witness :
    (∃ sampled,
        NoiseSource.sample ⟨.const 0, .const 10, .const 2⟩ (fun _ => none)
            1 0 0 = .ok sampled ∧
          ([1] : List ℚ) =
            (if ([] : List ℚ).length = 2 then ([] : List ℚ).drop 1 else []) ++
              [sampled] ∧
          (1 : ℚ) = 0 + ([1] : List ℚ).sum / (([1] : List ℚ).length : ℚ)) ∧
      ([1] : List ℚ).length ≤ 2 :=
  ⟨noisify_mechanics.1 ⟨.const 0, .const 10, .const 2⟩ (fun _ => none) 1 []
      0 0 0 2 1 [1] rfl
      (by norm_num [noisify, NoiseSource.sample, NatExpression.value]),
    noisify_mechanics.2 ⟨.const 0, .const 10, .const 2⟩ (fun _ => none) 2
      [(1, 0, 0, 0)] [] [1]
      (fun c hc => by rw [List.mem_singleton.mp hc]; rfl)
      (by decide) (by decide)
      (by norm_num [noisifyRun, noisify, NoiseSource.sample,
        NatExpression.value])⟩

/-- C8 (counterexample): with the frame-dependent window-length expression
`2·frame + 1`, three calls at frame 1 (window 3) followed by one call at
frame 0 (window 1) leave the buffer at length 4, exceeding the configured
window length 1 of the last call: eviction fires only when the buffer length
*equals* the current window length, so a shrunken window is not enforced. -/
theorem noisify_buffer_exceeds_shrunken_window :
    noisifyRun ⟨.const 0, .const 10, .numFunc 2 1⟩ (fun _ => none)
        [(0, 0, 0, 1), (0, 0, 0, 1), (0, 0, 0, 1), (0, 0, 0, 0)] []
      = .ok [0, 0, 0, 0] ∧
    NatExpression.value (fun _ => none)
      (⟨.const 0, .const 10, .numFunc 2 1⟩ :
        NoiseSource).smoothingWindowLength 0 = .ok 1 ∧
    ([(0 : ℚ), 0, 0, 0]).length = 4 ∧ ¬((4 : ℕ) ≤ 1) := by
  refine ⟨?_, rfl, rfl, by decide⟩
  norm_num [noisifyRun, noisify, NoiseSource.sample, NatExpression.value]

/-- C5 (supporting theorem): `FloatRandomDistribution::sample` on a uniform
distribution returns the draw of a `StdRng` seeded with the
sub-second-nanosecond wall-clock reading taken during the call; whenever
the seeded generator's draws at two clock readings differ, the two sample
results differ, although the template and the frame are identical — the
result depends on when it is executed, and no seed can be supplied. -/
theorem sample_uniform_depends_on_wall_clock (rng : RngDraws)
    (env : String → Option ℚ) (frame c1 c2 : ℕ)
    (h : rng.uniformRange 0 1 c1 ≠ rng.uniformRange 0 1 c2) :
    FloatRandomDistribution.sample rng env
        (.uniformFloat (.const 0) (.const 1)) frame c1
      ≠ FloatRandomDistribution.sample rng env
          (.uniformFloat (.const 0) (.const 1)) frame c2 := by
  intro heq
  exact h (Except.ok.inj heq)

/-- Witness for `sample_uniform_depends_on_wall_clock`: a generator model
whose unit draw equals its seed gives different samples at clock readings
0 and 1. -/
theorem sample_uniform_depends_on_wall_clock_witness :
    FloatRandomDistribution.sample
        ⟨fun _ _ s => (s : ℚ), fun _ _ _ => 0, fun _ _ => 0⟩ (fun _ => none)
        (.uniformFloat (.const 0) (.const 1)) 0 0
      ≠ FloatRandomDistribution.sample
          ⟨fun _ _ s => (s : ℚ), fun _ _ _ => 0, fun _ _ => 0⟩ (fun _ => none)
          (.uniformFloat (.const 0) (.const 1)) 0 1 :=
  sample_uniform_depends_on_wall_clock _ _ 0 0 1 (by norm_num)

/-- Evaluating the `Time` (u32) cast at a real number lying in `[n, n+1)`
for `n` below the saturation bound. -/
theorem toTime_eq (x : ℝ) (n : ℕ) (h1 : (n : ℝ) ≤ x) (h2 : x < n + 1)
    (h3 : n < 2 ^ 32) : toTime x = n := by
  have hfloor : ⌊x⌋ = (n : ℤ) := by
    rw [Int.floor_eq_iff]
    exact ⟨by exact_mod_cast h1, by exact_mod_cast h2⟩
  unfold toTime
  rw [hfloor, Int.toNat_natCast, min_eq_left (by omega)]

/-- The `Time` (u32) cast is monotone. -/
theorem toTime_mono {x y : ℝ} (h : x ≤ y) : toTime x ≤ toTime y :=
  min_le_min (Int.toNat_le_toNat (Int.floor_le_floor h)) le_rfl

/-- C6 (amended): for a Flat pulse event sampled with the drawn `start`,
`width` and `amplitude`, `get_value_at(t)` returns `amplitude` throughout
the half-open interval `[start, start + width)` — but outside that interval
it returns `0` only when the `Time` (u32) cast of `t` falls outside the
inclusive cast interval `[cast start, cast (start + width)]`: the boundary
is quantised to integer ticks and the upper end is inclusive, so points at
or just beyond `start + width` (and just before `start`, within the same
tick) also return the amplitude rather than `0`. -/
theorem flat_value_eq_iff_tick_in_bounds (erfc : ℝ → ℝ)
    (start width amplitude t : ℝ) :
    (start ≤ t → t < start + width →
        PulseEvent.getValueAt erfc (sampleFlat start width amplitude) t
          = amplitude) ∧
      PulseEvent.getValueAt erfc (sampleFlat start width amplitude) t
        = if toTime start ≤ toTime t ∧ toTime t ≤ toTime (start + width)
          then amplitude else 0 := by
  have hchar : PulseEvent.getValueAt erfc (sampleFlat start width amplitude) t
      = if toTime start ≤ toTime t ∧ toTime t ≤ toTime (start + width)
        then amplitude else 0 := by
    simp only [PulseEvent.getValueAt, sampleFlat, PulseEvent.getStart,
      PulseEvent.getEnd]
    split_ifs <;> first | rfl | omega
  refine ⟨fun h1 h2 => ?_, hchar⟩
  rw [hchar, if_pos ⟨toTime_mono h1, toTime_mono h2.le⟩]

/-- Witness for `flat_value_eq_iff_tick_in_bounds`: a Flat pulse with
`start = 0`, `width = 10`, `amplitude = 7` evaluates to `7` at `t = 3`,
which lies inside `[0, 10)`. -/
theorem flat_value_eq_iff_tick_in_bounds_witness :
    PulseEvent.getValueAt (fun _ => 1) (sampleFlat 0 10 7) 3 = 7 :=
  (flat_value_eq_iff_tick_in_bounds (fun _ => 1) 0 10 7 3).1 (by norm_num)
    (by norm_num)

/-- C6 (counterexample): the Flat pulse sampled with `start = 0`,
`width = 10`, `amplitude = 5` returns `5` at `t = 10`, although `10` lies
outside the half-open interval `[0, 0 + 10)`, where the claim says the value
is `0`: the source's boundary guard compares u32 casts inclusively. -/
theorem flat_value_nonzero_outside_support :
    PulseEvent.getValueAt (fun _ => 1) (sampleFlat 0 10 5) 10 = 5 ∧
      ¬((10 : ℝ) < 0 + 10) ∧ (5 : ℝ) ≠ 0 := by
  refine ⟨?_, by norm_num, by norm_num⟩
  have h0 : toTime (0 : ℝ) = 0 :=
    toTime_eq 0 0 (by norm_num) (by norm_num) (by norm_num)
  have h10 : toTime (10 : ℝ) = 10 :=
    toTime_eq 10 10 (by norm_num) (by norm_num) (by norm_num)
  simp only [PulseEvent.getValueAt, sampleFlat, PulseEvent.getStart,
    PulseEvent.getEnd]
  norm_num [h0, h10]

/-- The `normalising_factor` with both `erfc` values nonzero: the guards do
not fire and the factor is `peak_height` over the two-term denominator. -/
theorem b2bNormalisingFactor_eq (erfc : ℝ → ℝ)
    (peakHeight spread falling rising : ℝ)
    (h1 : erfc (rising * spread ^ 2 * ((Real.sqrt 2)⁻¹ / spread)) ≠ 0)
    (h2 : erfc (falling * spread ^ 2 * ((Real.sqrt 2)⁻¹ / spread)) ≠ 0) :
    b2bNormalisingFactor erfc peakHeight spread falling rising
      = peakHeight /
        (Real.exp (0.5 * rising * (rising * spread ^ 2)) *
            erfc (rising * spread ^ 2 * ((Real.sqrt 2)⁻¹ / spread)) +
          Real.exp (0.5 * falling * (falling * spread ^ 2)) *
            erfc (falling * spread ^ 2 * ((Real.sqrt 2)⁻¹ / spread))) := by
  simp only [b2bNormalisingFactor, if_neg h1, if_neg h2]

/-- `get_value_at` of a back-to-back-exponential event at its peak time,
when the boundary guard passes and both `erfc` values are nonzero: the
`τ = 0` specialisation of the value expression. -/
theorem getValueAt_b2b_at_peak (erfc : ℝ → ℝ)
    (peakHeight peakTime spread falling rising : ℝ)
    (h1 : erfc (rising * spread ^ 2 * ((Real.sqrt 2)⁻¹ / spread)) ≠ 0)
    (h2 : erfc (falling * spread ^ 2 * ((Real.sqrt 2)⁻¹ / spread)) ≠ 0)
    (hlo : (sampleBackToBackExp erfc peakHeight peakTime spread falling
        rising).getStart ≤ toTime peakTime)
    (hhi : toTime peakTime ≤ (sampleBackToBackExp erfc peakHeight peakTime
        spread falling rising).getEnd) :
    PulseEvent.getValueAt erfc
        (sampleBackToBackExp erfc peakHeight peakTime spread falling rising)
        peakTime
      = b2bNormalisingFactor erfc peakHeight spread falling rising *
        (Real.exp (0.5 * rising * (rising * spread ^ 2)) *
            erfc (rising * spread ^ 2 * ((Real.sqrt 2)⁻¹ / spread)) +
          Real.exp (0.5 * falling * (falling * spread ^ 2)) *
            erfc (falling * spread ^ 2 * ((Real.sqrt 2)⁻¹ / spread))) := by
  rw [PulseEvent.getValueAt.eq_def,
    if_neg (not_or.mpr ⟨not_lt.mpr hlo, not_lt.mpr hhi⟩)]
  simp only [sampleBackToBackExp, sub_self, add_zero, sub_zero, if_pos h1,
    if_pos h2]
  ring_nf

/-- C4 (amended): for every back-to-back-exponential pulse event sampled
with positive spread, rising and falling rates and positive peak height,
**and whose sampled support contains the peak time** (the `Time`-cast peak
time lies between the cast `start` and `stop`, i.e. the boundary guard of
`get_value_at` passes — guaranteed e.g. when the normalising factor is at
least 1, but violated when the peak height is small against the
denominator), and for every strictly positive `erfc` (as the true
complementary error function is), `get_value_at(peak_time)` equals
`peak_height` exactly in real arithmetic, hence lies within relative
tolerance `1e-3` of it. -/
theorem b2b_peak_value_within_tolerance (erfc : ℝ → ℝ)
    (herfc : ∀ x, 0 < erfc x)
    (peakHeight peakTime spread falling rising : ℝ)
    (hspread : 0 < spread) (hfalling : 0 < falling) (hrising : 0 < rising)
    (hph : 0 < peakHeight)
    (hlo : (sampleBackToBackExp erfc peakHeight peakTime spread falling
        rising).getStart ≤ toTime peakTime)
    (hhi : toTime peakTime ≤ (sampleBackToBackExp erfc peakHeight peakTime
        spread falling rising).getEnd) :
    |PulseEvent.getValueAt erfc
        (sampleBackToBackExp erfc peakHeight peakTime spread falling rising)
        peakTime - peakHeight| < 1 / 1000 * peakHeight := by
  have h1 : erfc (rising * spread ^ 2 * ((Real.sqrt 2)⁻¹ / spread)) ≠ 0 :=
    (herfc _).ne'
  have h2 : erfc (falling * spread ^ 2 * ((Real.sqrt 2)⁻¹ / spread)) ≠ 0 :=
    (herfc _).ne'
  have hD : 0 < Real.exp (0.5 * rising * (rising * spread ^ 2)) *
        erfc (rising * spread ^ 2 * ((Real.sqrt 2)⁻¹ / spread)) +
      Real.exp (0.5 * falling * (falling * spread ^ 2)) *
        erfc (falling * spread ^ 2 * ((Real.sqrt 2)⁻¹ / spread)) :=
    add_pos (mul_pos (Real.exp_pos _) (herfc _))
      (mul_pos (Real.exp_pos _) (herfc _))
  rw [getValueAt_b2b_at_peak erfc peakHeight peakTime spread falling rising
      h1 h2 hlo hhi,
    b2bNormalisingFactor_eq erfc peakHeight spread falling rising h1 h2,
    div_mul_cancel₀ _ hD.ne', sub_self, abs_zero]
  positivity

/-- Witness for `b2b_peak_value_within_tolerance`: with the constant stub
`erfc = 1`, peak height `2·e^{1/2}`, peak time 100 and unit spread and
rates, the normalising factor is exactly 1, the sampled support is
`[99.5, 100.5]`, the guard passes, and the peak value meets the tolerance. -/
theorem b2b_peak_value_within_tolerance_witness :
    |PulseEvent.getValueAt (fun _ => 1)
        (sampleBackToBackExp (fun _ => 1) (2 * Real.exp (1 / 2)) 100 1 1 1)
        100 - 2 * Real.exp (1 / 2)| <
      1 / 1000 * (2 * Real.exp (1 / 2)) := by
  have hN : b2bNormalisingFactor (fun _ => 1) (2 * Real.exp (1 / 2)) 1 1 1
      = 1 := by
    rw [b2bNormalisingFactor_eq _ _ _ _ _ one_ne_zero one_ne_zero,
      div_eq_one_iff_eq (by positivity)]
    norm_num
    ring
  have hstart : (sampleBackToBackExp (fun _ => 1) (2 * Real.exp (1 / 2))
      100 1 1 1).getStart = 99 := by
    simp only [sampleBackToBackExp, PulseEvent.getStart]
    rw [hN, Real.log_one]
    norm_num
    exact toTime_eq _ 99 (by norm_num) (by norm_num) (by norm_num)
  have hstop : (sampleBackToBackExp (fun _ => 1) (2 * Real.exp (1 / 2))
      100 1 1 1).getEnd = 100 := by
    simp only [sampleBackToBackExp, PulseEvent.getEnd]
    rw [hN, Real.log_one]
    norm_num
    exact toTime_eq _ 100 (by norm_num) (by norm_num) (by norm_num)
  have h100 : toTime (100 : ℝ) = 100 :=
    toTime_eq 100 100 (by norm_num) (by norm_num) (by norm_num)
  exact b2b_peak_value_within_tolerance (fun _ => 1) (fun _ => one_pos)
    (2 * Real.exp (1 / 2)) 100 1 1 1 one_pos one_pos one_pos (by positivity)
    (by rw [hstart, h100]; omega) (by rw [hstop, h100])

/-- C4 (counterexample): with the stub `erfc = 3/10` (close to the true
`erfc(1/√2) ≈ 0.317` at the two points the code evaluates here), the pulse
sampled with peak height `1/5`, peak time `10`, and unit spread and rates
has normalising factor `(3·e^{1/2})⁻¹ < 1`, so its sampled
`start = 10 + ln 3 ≈ 11.1` lies **after** the peak time;
`get_value_at(peak_time)` hits the boundary guard and returns `0`,
violating the claimed relative tolerance even though spread, rates and peak
height are all positive.  (The true `erfc` fails on the same input by the
same mechanism.) -/
theorem b2b_peak_value_tolerance_fails :
    PulseEvent.getValueAt (fun _ => 3 / 10)
        (sampleBackToBackExp (fun _ => 3 / 10) (1 / 5) 10 1 1 1) 10 = 0 ∧
      (0 : ℝ) < 1 ∧ (0 : ℝ) < 1 / 5 ∧
      ¬(|PulseEvent.getValueAt (fun _ => 3 / 10)
            (sampleBackToBackExp (fun _ => 3 / 10) (1 / 5) 10 1 1 1) 10 -
          1 / 5| < 1 / 1000 * (1 / 5)) := by
  have he : Real.exp (0.5 * 1 * (1 * 1 ^ 2)) = Real.exp (1 / 2) := by
    norm_num
  have hN : b2bNormalisingFactor (fun _ => 3 / 10) (1 / 5) 1 1 1
      = (3 * Real.exp (1 / 2))⁻¹ := by
    rw [b2bNormalisingFactor_eq _ _ _ _ _ (by norm_num) (by norm_num), he,
      inv_eq_one_div, div_eq_div_iff (by positivity) (by positivity)]
    ring
  have hlog : Real.log ((3 * Real.exp (1 / 2))⁻¹)
      = -(Real.log 3 + 1 / 2) := by
    rw [Real.log_inv, Real.log_mul (by norm_num) (Real.exp_ne_zero _),
      Real.log_exp]
  have h3lb : 1 < Real.log 3 := by
    have hexp : Real.exp 1 < 3 := lt_trans Real.exp_one_lt_d9 (by norm_num)
    exact (Real.lt_log_iff_exp_lt (by norm_num)).mpr hexp
  have h3ub : Real.log 3 < 2 := by
    have h1 : (2.7182818283 : ℝ) < Real.exp 1 := Real.exp_one_gt_d9
    have h2 : (3 : ℝ) < Real.exp 2 := by
      have hsq : Real.exp 2 = Real.exp 1 * Real.exp 1 := by
        rw [← Real.exp_add]; norm_num
      nlinarith
    exact (Real.log_lt_iff_lt_exp (by norm_num)).mpr h2
  have hstart : (sampleBackToBackExp (fun _ => 3 / 10) (1 / 5)
      10 1 1 1).getStart = 11 := by
    simp only [sampleBackToBackExp, PulseEvent.getStart]
    rw [hN, hlog]
    have harg : (10 : ℝ) - 0.5 * (1 * 1 ^ 2) - -(Real.log 3 + 1 / 2) / 1
        = 10 + Real.log 3 := by ring
    rw [harg]
    exact toTime_eq _ 11 (by push_cast; linarith) (by push_cast; linarith)
      (by norm_num)
  have h10 : toTime (10 : ℝ) = 10 :=
    toTime_eq 10 10 (by norm_num) (by norm_num) (by norm_num)
  have hval : PulseEvent.getValueAt (fun _ => 3 / 10)
      (sampleBackToBackExp (fun _ => 3 / 10) (1 / 5) 10 1 1 1) 10 = 0 := by
    rw [PulseEvent.getValueAt.eq_def,
      if_pos (Or.inl (show _ > _ by rw [hstart, h10]; omega))]
  refine ⟨hval, by norm_num, by norm_num, ?_⟩
  rw [hval, zero_sub, abs_neg, abs_of_nonneg (by norm_num)]
  norm_num

end Muon
